import Mathlib

/-!
Shallow embedding of `pricing_engine.py`: a pricing engine that resolves
the best applicable price for a (product, quantity, customer) query.

Python strings are modelled as `List Char`; Python ints as `Int`
(arbitrary precision); the `float` price field as `ℚ` (the prices that
occur are exact decimal values, on which Python float comparison agrees
with rational comparison); `Dict.get` as a function into `Option`.
The single Python exception class `PricingError` is modelled as an
inductive with one constructor per `raise` site, together with a
`message` function reproducing each site's f-string exactly.
-/

abbrev Str := List Char

deriving instance DecidableEq for Except

/-- ASCII uppercase of one character, modelling Python `str.upper`
character-wise on the ASCII range. -/
def upperChar (c : Char) : Char :=
  if c = 'a' then 'A' else if c = 'b' then 'B' else if c = 'c' then 'C'
  else if c = 'd' then 'D' else if c = 'e' then 'E' else if c = 'f' then 'F'
  else if c = 'g' then 'G' else if c = 'h' then 'H' else if c = 'i' then 'I'
  else if c = 'j' then 'J' else if c = 'k' then 'K' else if c = 'l' then 'L'
  else if c = 'm' then 'M' else if c = 'n' then 'N' else if c = 'o' then 'O'
  else if c = 'p' then 'P' else if c = 'q' then 'Q' else if c = 'r' then 'R'
  else if c = 's' then 'S' else if c = 't' then 'T' else if c = 'u' then 'U'
  else if c = 'v' then 'V' else if c = 'w' then 'W' else if c = 'x' then 'X'
  else if c = 'y' then 'Y' else if c = 'z' then 'Z' else c

/-- Python `s.upper()`. -/
def upper (s : Str) : Str := s.map upperChar

/-- Python `s.startswith("P")`. -/
def startsWithP : Str → Bool
  | [] => false
  | c :: _ => c == 'P'

/-- Python `s.isdigit()`: nonempty and every character a digit. -/
def isDigitStr (s : Str) : Bool :=
  !s.isEmpty && s.all Char.isDigit

/-- Python `int(s)` on a digit string: decimal value. -/
def parseNat (s : Str) : Nat :=
  s.foldl (fun acc c => 10 * acc + (c.toNat - '0'.toNat)) 0

/-- Decimal digit characters of a natural number, as Python renders it. -/
def natDigits (n : Nat) : Str := Nat.toDigits 10 n

/-- Left-pad a digit string with zeros to width at least `w`. -/
def padZeros (w : Nat) (ds : Str) : Str :=
  List.replicate (w - ds.length) '0' ++ ds

/-- Python `str(n)` for an `int` `n`. -/
def intRepr (n : Int) : Str :=
  if n < 0 then '-' :: natDigits n.natAbs else natDigits n.toNat

/-- Python `f"{n:03d}"`: decimal form of `n` zero-padded to total width 3
(the sign, when present, counts toward the width). -/
def formatInt3 (n : Int) : Str :=
  if n < 0 then '-' :: padZeros 2 (natDigits n.natAbs)
  else padZeros 3 (natDigits n.toNat)

/-- A Python value of type `Union[int, str]`: the `product_id` argument. -/
inductive ProductId where
  | int (n : Int)
  | str (s : Str)
deriving DecidableEq

/-- Enum `PriceType` from the source. -/
inductive PriceType where
  | CUSTOMER
  | TIER
  | GROUP
  | NORMAL
deriving DecidableEq

/-- The `.value` of each `PriceType` member (its string payload). -/
def PriceType.value : PriceType → Str
  | .CUSTOMER => "CUSTOMER".data
  | .TIER => "TIER".data
  | .GROUP => "GROUP".data
  | .NORMAL => "NORMAL".data

/-- A Python value of type `Optional[Union[int, str]]`: the `key` field. -/
inductive Key where
  | none
  | intKey (i : Int)
  | strKey (s : Str)
deriving DecidableEq

/-- Dataclass `PriceEntry` from the source. -/
structure PriceEntry where
  product_id : Str
  min_qty : Int
  price : ℚ
  source : PriceType
  key : Key := Key.none
deriving DecidableEq

/-- `PricingEngine.PRIORITY`: lower number = higher priority. -/
def PRIORITY : PriceType → Nat
  | .CUSTOMER => 1
  | .TIER => 2
  | .GROUP => 3
  | .NORMAL => 4

/-- The engine's construction-time state: the rule list and the two
customer mappings (`Dict.get` modelled as a function into `Option`). -/
structure PricingEngine where
  prices : List PriceEntry
  customer_tiers : Int → Option Str
  customer_groups : Int → Option Str

/-- The single exception class `PricingError`, split by `raise` site. -/
inductive PricingError where
  | invalidQuantity
  | invalidProduct (raw : ProductId)
  | noPriceFound (code : Str) (quantity : Int)
deriving DecidableEq

/-- Python `str(product_id)` as interpolated into the error f-string. -/
def pidStr : ProductId → Str
  | .int n => intRepr n
  | .str s => s

/-- The exact message each `raise PricingError(...)` site produces. -/
def PricingError.message : PricingError → Str
  | .invalidQuantity => "Quantity must be greater than zero.".data
  | .invalidProduct raw => "Invalid product_id: ".data ++ pidStr raw
  | .noPriceFound code quantity =>
      "No price found for ".data ++ code ++ " with quantity ".data ++
        intRepr quantity ++ ".".data

/-- `PricingEngine.normalize_product_code`. -/
def normalize_product_code (product_id : ProductId) : Except PricingError Str :=
  match product_id with
  | .int n => .ok ('P' :: formatInt3 n)
  | .str s =>
      if startsWithP (upper s) then .ok (upper s)
      else if isDigitStr s then .ok ('P' :: padZeros 3 (natDigits (parseNat s)))
      else .error (.invalidProduct (.str s))

/-- Python `p.key == customer_id` guarded by `isinstance(p.key, int)`. -/
def keyIntEq : Key → Int → Bool
  | Key.intKey i, c => i == c
  | _, _ => false

/-- Python `p.key == t` for `t : Optional[str]`, guarded by
`isinstance(p.key, str)`; comparing a `str` with `None` is `False`. -/
def keyStrEq : Key → Option Str → Bool
  | Key.strKey s, some t => s == t
  | _, _ => false

/-- The filter condition of the `applicable` list comprehension in
`get_best_price`, literally transcribed. -/
def matchesEntry (prod_code : Str) (quantity customer_id : Int)
    (tier group : Option Str) (p : PriceEntry) : Bool :=
  p.product_id == prod_code &&
  decide (p.min_qty ≤ quantity) &&
  ((p.source == PriceType.CUSTOMER && keyIntEq p.key customer_id) ||
   (p.source == PriceType.TIER && keyStrEq p.key tier) ||
   (p.source == PriceType.GROUP && keyStrEq p.key group) ||
   (p.source == PriceType.NORMAL))

/-- The `applicable` list built inside `get_best_price`. -/
def applicableRules (e : PricingEngine) (prod_code : Str)
    (quantity customer_id : Int) : List PriceEntry :=
  e.prices.filter
    (matchesEntry prod_code quantity customer_id
      (e.customer_tiers customer_id) (e.customer_groups customer_id))

/-- Python tuple comparison `(PRIORITY[a.source], a.price) <
(PRIORITY[b.source], b.price)`. -/
def keyLt (a b : PriceEntry) : Bool :=
  decide (PRIORITY a.source < PRIORITY b.source) ||
  (PRIORITY a.source == PRIORITY b.source && decide (a.price < b.price))

/-- Python `min(best :: rest, key=...)`: scans left to right, replacing
the running best only on a strictly smaller key, so the first minimum
wins. -/
def pyMinAux (best : PriceEntry) : List PriceEntry → PriceEntry
  | [] => best
  | p :: ps => pyMinAux (if keyLt p best then p else best) ps

/-- The dict returned by `get_best_price`. -/
structure PriceResult where
  product_id : Str
  price : ℚ
  price_type : Str
deriving DecidableEq

/-- The result dict built from the winning entry. -/
def mkResult (best : PriceEntry) : PriceResult :=
  ⟨best.product_id, best.price, best.source.value⟩

/-- `PricingEngine.get_best_price`. -/
def get_best_price (e : PricingEngine) (product_id : ProductId)
    (quantity customer_id : Int) : Except PricingError PriceResult :=
  if quantity ≤ 0 then .error .invalidQuantity
  else
    match normalize_product_code product_id with
    | .error err => .error err
    | .ok prod_code =>
        match applicableRules e prod_code quantity customer_id with
        | [] => .error (.noPriceFound prod_code quantity)
        | a :: rest => .ok (mkResult (pyMinAux a rest))

/-- Lexicographic `≤` on the selection key `(PRIORITY source, price)`. -/
def lexLe (a b : PriceEntry) : Prop :=
  PRIORITY a.source < PRIORITY b.source ∨
  (PRIORITY a.source = PRIORITY b.source ∧ a.price ≤ b.price)

/-- Lexicographic `<` on the selection key `(PRIORITY source, price)`. -/
def lexLt (a b : PriceEntry) : Prop :=
  PRIORITY a.source < PRIORITY b.source ∨
  (PRIORITY a.source = PRIORITY b.source ∧ a.price < b.price)

/-- The scope condition of the candidate filter, written out per source:
a CUSTOMER rule needs an integer key equal to the customer id, a
TIER/GROUP rule needs a string key equal to the customer's tier/group,
and a NORMAL rule always applies. -/
def Applicable (customer_id : Int) (tier group : Option Str)
    (p : PriceEntry) : Prop :=
  (p.source = PriceType.CUSTOMER ∧ ∃ i, p.key = Key.intKey i ∧ i = customer_id) ∨
  (p.source = PriceType.TIER ∧ ∃ s, p.key = Key.strKey s ∧ tier = some s) ∨
  (p.source = PriceType.GROUP ∧ ∃ s, p.key = Key.strKey s ∧ group = some s) ∨
  p.source = PriceType.NORMAL

/-- A string starting with the given character. -/
def startsWithChar (c : Char) (s : Str) : Prop := ∃ t, s = c :: t

/-- A canonical product code as the spec describes rule codes: `P`
followed by a nonempty digit string. -/
def CanonicalCode (s : Str) : Prop :=
  ∃ d ds, s = 'P' :: d :: ds ∧ d.isDigit = true

/-- The sample rule set of the repository's test suite: used as concrete
input for witness instantiations. -/
def sampleEngine : PricingEngine where
  prices := [
    ⟨"P001".data, 1, 100, PriceType.NORMAL, Key.none⟩,
    ⟨"P002".data, 1, 10, PriceType.NORMAL, Key.none⟩,
    ⟨"P001".data, 3, 95, PriceType.TIER, Key.strKey "GOLD".data⟩,
    ⟨"P003".data, 2, 50, PriceType.GROUP, Key.strKey "GRP1".data⟩,
    ⟨"P002".data, 1, 5, PriceType.CUSTOMER, Key.intKey 6⟩]
  customer_tiers := fun c =>
    if c = 2 then some "GOLD".data
    else if c = 6 then some "SILVER".data
    else none
  customer_groups := fun c => if c = 6 then some "GRP1".data else none

/-- The only characters uppercasing to `P` are `P` and `p`. -/
lemma upperChar_eq_P {c : Char} (h : upperChar c = 'P') : c = 'P' ∨ c = 'p' := by
  by_cases ha : c = 'a'
  · rw [ha] at h ; exact absurd h (by decide)
  by_cases hb : c = 'b'
  · rw [hb] at h ; exact absurd h (by decide)
  by_cases hc : c = 'c'
  · rw [hc] at h ; exact absurd h (by decide)
  by_cases hd : c = 'd'
  · rw [hd] at h ; exact absurd h (by decide)
  by_cases he : c = 'e'
  · rw [he] at h ; exact absurd h (by decide)
  by_cases hf : c = 'f'
  · rw [hf] at h ; exact absurd h (by decide)
  by_cases hg : c = 'g'
  · rw [hg] at h ; exact absurd h (by decide)
  by_cases hh : c = 'h'
  · rw [hh] at h ; exact absurd h (by decide)
  by_cases hi : c = 'i'
  · rw [hi] at h ; exact absurd h (by decide)
  by_cases hj : c = 'j'
  · rw [hj] at h ; exact absurd h (by decide)
  by_cases hk : c = 'k'
  · rw [hk] at h ; exact absurd h (by decide)
  by_cases hl : c = 'l'
  · rw [hl] at h ; exact absurd h (by decide)
  by_cases hm : c = 'm'
  · rw [hm] at h ; exact absurd h (by decide)
  by_cases hn : c = 'n'
  · rw [hn] at h ; exact absurd h (by decide)
  by_cases ho : c = 'o'
  · rw [ho] at h ; exact absurd h (by decide)
  by_cases hp : c = 'p'
  · exact Or.inr hp
  by_cases hq : c = 'q'
  · rw [hq] at h ; exact absurd h (by decide)
  by_cases hr : c = 'r'
  · rw [hr] at h ; exact absurd h (by decide)
  by_cases hs : c = 's'
  · rw [hs] at h ; exact absurd h (by decide)
  by_cases ht : c = 't'
  · rw [ht] at h ; exact absurd h (by decide)
  by_cases hu : c = 'u'
  · rw [hu] at h ; exact absurd h (by decide)
  by_cases hv : c = 'v'
  · rw [hv] at h ; exact absurd h (by decide)
  by_cases hw : c = 'w'
  · rw [hw] at h ; exact absurd h (by decide)
  by_cases hx : c = 'x'
  · rw [hx] at h ; exact absurd h (by decide)
  by_cases hy : c = 'y'
  · rw [hy] at h ; exact absurd h (by decide)
  by_cases hz : c = 'z'
  · rw [hz] at h ; exact absurd h (by decide)
  unfold upperChar at h
  rw [if_neg ha, if_neg hb, if_neg hc, if_neg hd, if_neg he, if_neg hf, if_neg hg, if_neg hh, if_neg hi, if_neg hj, if_neg hk, if_neg hl, if_neg hm, if_neg hn, if_neg ho, if_neg hp, if_neg hq, if_neg hr, if_neg hs, if_neg ht, if_neg hu, if_neg hv, if_neg hw, if_neg hx, if_neg hy, if_neg hz] at h
  exact Or.inl h

/-! ### Order on selection keys -/

lemma keyLt_iff_lexLt (a b : PriceEntry) : keyLt a b = true ↔ lexLt a b := by
  unfold keyLt lexLt
  simp [Bool.or_eq_true, Bool.and_eq_true, decide_eq_true_iff, beq_iff_eq]

lemma lexLe_refl (a : PriceEntry) : lexLe a a := Or.inr ⟨rfl, le_refl _⟩

lemma lexLt_le {a b : PriceEntry} (h : lexLt a b) : lexLe a b := by
  rcases h with h | ⟨h1, h2⟩
  · exact Or.inl h
  · exact Or.inr ⟨h1, le_of_lt h2⟩

lemma lexLe_trans {a b c : PriceEntry} (h1 : lexLe a b) (h2 : lexLe b c) :
    lexLe a c := by
  rcases h1 with h1 | ⟨h1, h1'⟩ <;> rcases h2 with h2 | ⟨h2, h2'⟩
  · exact Or.inl (lt_trans h1 h2)
  · exact Or.inl (h2 ▸ h1)
  · exact Or.inl (h1 ▸ h2)
  · exact Or.inr ⟨h1.trans h2, le_trans h1' h2'⟩

lemma lexLe_lt_trans {a b c : PriceEntry} (h1 : lexLe a b) (h2 : lexLt b c) :
    lexLt a c := by
  rcases h1 with h1 | ⟨h1, h1'⟩ <;> rcases h2 with h2 | ⟨h2, h2'⟩
  · exact Or.inl (lt_trans h1 h2)
  · exact Or.inl (h2 ▸ h1)
  · exact Or.inl (h1 ▸ h2)
  · exact Or.inr ⟨h1.trans h2, lt_of_le_of_lt h1' h2'⟩

lemma lexLt_le_trans {a b c : PriceEntry} (h1 : lexLt a b) (h2 : lexLe b c) :
    lexLt a c := by
  rcases h1 with h1 | ⟨h1, h1'⟩ <;> rcases h2 with h2 | ⟨h2, h2'⟩
  · exact Or.inl (lt_trans h1 h2)
  · exact Or.inl (h2 ▸ h1)
  · exact Or.inl (h1 ▸ h2)
  · exact Or.inr ⟨h1.trans h2, lt_of_lt_of_le h1' h2'⟩

lemma lexLe_of_not_lexLt {a b : PriceEntry} (h : ¬ lexLt a b) : lexLe b a := by
  unfold lexLt at h
  push_neg at h
  obtain ⟨h1, h2⟩ := h
  rcases eq_or_lt_of_le h1 with heq | hlt
  · exact Or.inr ⟨heq, h2 heq.symm⟩
  · exact Or.inl hlt

/-! ### The scan performed by Python `min` -/

lemma pyMinAux_cons (b p : PriceEntry) (ps : List PriceEntry) :
    pyMinAux b (p :: ps) = pyMinAux (if keyLt p b then p else b) ps := rfl

lemma pyMinAux_le_seed : ∀ (l : List PriceEntry) (b : PriceEntry),
    lexLe (pyMinAux b l) b := by
  intro l
  induction l with
  | nil => intro b; exact lexLe_refl b
  | cons p ps ih =>
    intro b
    rw [pyMinAux_cons]
    split
    case isTrue h =>
      exact lexLe_trans (ih p) (lexLt_le ((keyLt_iff_lexLt p b).1 h))
    case isFalse h =>
      exact ih b

/-- The result of the scan is the first entry of `b :: l` attaining the
lexicographically minimal key: everything before it is strictly larger,
everything after it is at least as large. -/
lemma pyMinAux_first_min : ∀ (l : List PriceEntry) (b : PriceEntry),
    ∃ l1 l2, b :: l = l1 ++ pyMinAux b l :: l2 ∧
      (∀ p ∈ l1, lexLt (pyMinAux b l) p) ∧
      (∀ p ∈ l2, lexLe (pyMinAux b l) p) := by
  intro l
  induction l with
  | nil =>
    intro b
    exact ⟨[], [], rfl, by simp, by simp⟩
  | cons p ps ih =>
    intro b
    rw [pyMinAux_cons]
    split
    case isTrue h =>
      obtain ⟨l1, l2, heq, h1, h2⟩ := ih p
      refine ⟨b :: l1, l2, ?_, ?_, h2⟩
      · rw [List.cons_append, ← heq]
      · intro q hq
        rcases List.mem_cons.1 hq with rfl | hq'
        · exact lexLe_lt_trans (pyMinAux_le_seed ps p) ((keyLt_iff_lexLt p q).1 h)
        · exact h1 q hq'
    case isFalse h =>
      have hbp : lexLe b p := lexLe_of_not_lexLt fun hlt =>
        h ((keyLt_iff_lexLt p b).2 hlt)
      obtain ⟨l1, l2, heq, h1, h2⟩ := ih b
      cases l1 with
      | nil =>
        rw [List.nil_append] at heq
        injection heq with hb hl2
        refine ⟨[], p :: ps, ?_, by simp, ?_⟩
        · rw [List.nil_append, ← hb]
        · intro q hq
          rcases List.mem_cons.1 hq with rfl | hq'
          · rw [← hb]; exact hbp
          · exact h2 q (hl2 ▸ hq')
      | cons a l1' =>
        rw [List.cons_append] at heq
        injection heq with ha hps
        have hrb : lexLt (pyMinAux b ps) b := by
          have := h1 a (List.mem_cons_self a l1')
          rw [← ha] at this
          exact this
        refine ⟨b :: p :: l1', l2, ?_, ?_, h2⟩
        · simp only [List.cons_append]
          rw [← hps]
        · intro q hq
          rcases List.mem_cons.1 hq with rfl | hq'
          · exact hrb
          · rcases List.mem_cons.1 hq' with rfl | hq''
            · exact lexLt_le_trans hrb hbp
            · exact h1 q (List.mem_cons_of_mem a hq'')

/-! ### Shape of a successful resolution -/

lemma get_best_price_ok {e : PricingEngine} {pid : ProductId} {qty cust : Int}
    {r : PriceResult} (h : get_best_price e pid qty cust = .ok r) :
    0 < qty ∧ ∃ code a rest, normalize_product_code pid = .ok code ∧
      applicableRules e code qty cust = a :: rest ∧
      r = mkResult (pyMinAux a rest) := by
  unfold get_best_price at h
  split at h
  · exact Except.noConfusion h
  case isFalse hq =>
    refine ⟨by omega, ?_⟩
    split at h
    · exact Except.noConfusion h
    case h_2 code heq =>
      split at h
      · exact Except.noConfusion h
      case h_2 a rest happ =>
        injection h with h'
        exact ⟨code, a, rest, heq, happ, h'.symm⟩

/-! ### Applicability of a rule, spelled out -/

lemma keyIntEq_iff (k : Key) (c : Int) :
    keyIntEq k c = true ↔ ∃ i, k = Key.intKey i ∧ i = c := by
  cases k <;> simp [keyIntEq]

lemma keyStrEq_iff (k : Key) (t : Option Str) :
    keyStrEq k t = true ↔ ∃ s, k = Key.strKey s ∧ t = some s := by
  cases k with
  | none => simp [keyStrEq]
  | intKey i => cases t <;> simp [keyStrEq]
  | strKey s =>
    cases t with
    | none => simp [keyStrEq]
    | some u =>
      simp only [keyStrEq, beq_iff_eq, Key.strKey.injEq, Option.some.injEq]
      constructor
      · intro h
        exact ⟨s, rfl, h.symm⟩
      · rintro ⟨s', rfl, rfl⟩
        rfl

lemma matchesEntry_iff (code : Str) (qty cust : Int) (tier group : Option Str)
    (p : PriceEntry) :
    matchesEntry code qty cust tier group p = true ↔
      p.product_id = code ∧ p.min_qty ≤ qty ∧ Applicable cust tier group p := by
  unfold matchesEntry Applicable
  simp only [Bool.and_eq_true, Bool.or_eq_true, decide_eq_true_iff, beq_iff_eq,
    keyIntEq_iff, keyStrEq_iff, and_assoc, or_assoc]

lemma mem_applicableRules_iff (e : PricingEngine) (code : Str) (qty cust : Int)
    (p : PriceEntry) :
    p ∈ applicableRules e code qty cust ↔
      p ∈ e.prices ∧ p.product_id = code ∧ p.min_qty ≤ qty ∧
        Applicable cust (e.customer_tiers cust) (e.customer_groups cust) p := by
  unfold applicableRules
  rw [List.mem_filter, matchesEntry_iff]

/-! ### Further helper lemmas -/

lemma normalize_int (n : Int) :
    normalize_product_code (.int n) = .ok ('P' :: formatInt3 n) := rfl

lemma normalize_never_invalidQuantity (pid : ProductId) :
    normalize_product_code pid ≠ .error .invalidQuantity := by
  intro h
  unfold normalize_product_code at h
  split at h
  · exact Except.noConfusion h
  · split at h
    · exact Except.noConfusion h
    · split at h
      · exact Except.noConfusion h
      · injection h with h'
        exact PricingError.noConfusion h'

lemma get_best_price_pos_quantity {e : PricingEngine} {pid : ProductId}
    {qty cust : Int} (hq : 0 < qty) :
    get_best_price e pid qty cust ≠ .error .invalidQuantity := by
  unfold get_best_price
  rw [if_neg (by omega)]
  split
  case h_1 err heq =>
    intro h
    injection h with h'
    exact normalize_never_invalidQuantity pid (h' ▸ heq)
  case h_2 code heq =>
    split
    · intro h
      injection h with h'
      exact PricingError.noConfusion h'
    · exact fun h => Except.noConfusion h

lemma get_best_price_nonpos {e : PricingEngine} {pid : ProductId}
    {qty cust : Int} (h : qty ≤ 0) :
    get_best_price e pid qty cust = .error .invalidQuantity := by
  unfold get_best_price
  rw [if_pos h]

lemma get_best_price_normalize_error {e : PricingEngine} {pid : ProductId}
    {qty cust : Int} {err : PricingError} (hq : 0 < qty)
    (hn : normalize_product_code pid = .error err) :
    get_best_price e pid qty cust = .error err := by
  unfold get_best_price
  rw [if_neg (by omega), hn]

lemma get_best_price_noPriceFound_iff {e : PricingEngine} {pid : ProductId}
    {qty cust : Int} {code : Str} (hq : 0 < qty)
    (hn : normalize_product_code pid = .ok code) :
    get_best_price e pid qty cust = .error (.noPriceFound code qty) ↔
      applicableRules e code qty cust = [] := by
  unfold get_best_price
  rw [if_neg (by omega), hn]
  cases happ : applicableRules e code qty cust with
  | nil => simp [happ]
  | cons a rest => simp [happ]

lemma startsWithP_upper {s : Str} (h : startsWithP (upper s) = true) :
    startsWithChar 'P' s ∨ startsWithChar 'p' s := by
  cases s with
  | nil => exact Bool.noConfusion h
  | cons c cs =>
    have hc : upperChar c = 'P' := by
      have : (upperChar c == 'P') = true := h
      exact eq_of_beq this
    rcases upperChar_eq_P hc with rfl | rfl
    · exact Or.inl ⟨cs, rfl⟩
    · exact Or.inr ⟨cs, rfl⟩

lemma startsWithP_upper_of_digits {s : Str} (h : isDigitStr s = true) :
    startsWithP (upper s) = false := by
  cases s with
  | nil => simp [isDigitStr] at h
  | cons c cs =>
    simp only [isDigitStr, List.isEmpty_cons, Bool.not_false, Bool.true_and,
      List.all_cons, Bool.and_eq_true] at h
    by_contra hne
    rw [Bool.not_eq_false] at hne
    rcases startsWithP_upper hne with ⟨t, ht⟩ | ⟨t, ht⟩ <;>
      injection ht with hh _ <;> rw [hh] at h <;> exact Bool.noConfusion h.1

lemma padZeros_structure (w : Nat) (ds : Str) :
    ∃ k, padZeros w ds = List.replicate k '0' ++ ds ∧
      (padZeros w ds).length = max w ds.length := by
  refine ⟨w - ds.length, rfl, ?_⟩
  simp only [padZeros, List.length_append, List.length_replicate]
  omega

lemma one_le_PRIORITY (t : PriceType) : 1 ≤ PRIORITY t := by
  cases t <;> decide

lemma PRIORITY_eq_one {t : PriceType} (h : PRIORITY t = 1) :
    t = PriceType.CUSTOMER := by
  cases t <;> revert h <;> decide

lemma formatInt3_neg {n : Int} (h : n < 0) :
    formatInt3 n = '-' :: padZeros 2 (natDigits n.natAbs) := by
  unfold formatInt3
  rw [if_pos h]

lemma applicableRules_nil_of_code_ne (e : PricingEngine) (code : Str)
    (qty cust : Int) (h : ∀ p ∈ e.prices, p.product_id ≠ code) :
    applicableRules e code qty cust = [] := by
  unfold applicableRules
  rw [List.filter_eq_nil_iff]
  intro p hp hm
  exact h p hp ((matchesEntry_iff _ _ _ _ _ p).1 hm).1

lemma Applicable_customer {cust : Int} {tier group : Option Str}
    {p : PriceEntry} (h : Applicable cust tier group p)
    (hs : p.source = PriceType.CUSTOMER) :
    ∃ i, p.key = Key.intKey i ∧ i = cust := by
  rcases h with ⟨_, hk⟩ | ⟨hsrc, _⟩ | ⟨hsrc, _⟩ | hsrc
  · exact hk
  all_goals rw [hs] at hsrc; exact PriceType.noConfusion hsrc

lemma Applicable_tier {cust : Int} {tier group : Option Str}
    {p : PriceEntry} (h : Applicable cust tier group p)
    (hs : p.source = PriceType.TIER) :
    ∃ s, p.key = Key.strKey s ∧ tier = some s := by
  rcases h with ⟨hsrc, _⟩ | ⟨_, hk⟩ | ⟨hsrc, _⟩ | hsrc
  · rw [hs] at hsrc; exact PriceType.noConfusion hsrc
  · exact hk
  all_goals rw [hs] at hsrc; exact PriceType.noConfusion hsrc

lemma Applicable_group {cust : Int} {tier group : Option Str}
    {p : PriceEntry} (h : Applicable cust tier group p)
    (hs : p.source = PriceType.GROUP) :
    ∃ s, p.key = Key.strKey s ∧ group = some s := by
  rcases h with ⟨hsrc, _⟩ | ⟨hsrc, _⟩ | ⟨_, hk⟩ | hsrc
  · rw [hs] at hsrc; exact PriceType.noConfusion hsrc
  · rw [hs] at hsrc; exact PriceType.noConfusion hsrc
  · exact hk
  · rw [hs] at hsrc; exact PriceType.noConfusion hsrc

lemma formatInt3_natCast (n : Nat) :
    formatInt3 (n : Int) = padZeros 3 (natDigits n) := by
  unfold formatInt3
  rw [if_neg (by omega)]
  norm_num

/-! ### Decomposition of a successful resolution around its winner -/

lemma resolve_ok_structure {e : PricingEngine} {pid : ProductId}
    {qty cust : Int} {r : PriceResult} {code : Str}
    (hr : get_best_price e pid qty cust = .ok r)
    (hn : normalize_product_code pid = .ok code) :
    ∃ b l1 l2, applicableRules e code qty cust = l1 ++ b :: l2 ∧
      r = mkResult b ∧ (∀ p ∈ l1, lexLt b p) ∧ (∀ p ∈ l2, lexLe b p) := by
  obtain ⟨hq, code', a, rest, hn', happ, hres⟩ := get_best_price_ok hr
  rw [hn] at hn'
  injection hn' with hcode
  subst hcode
  obtain ⟨l1, l2, hdecomp, h1, h2⟩ := pyMinAux_first_min rest a
  exact ⟨pyMinAux a rest, l1, l2, happ.trans hdecomp, hres, h1, h2⟩

lemma resolve_ok_min {e : PricingEngine} {pid : ProductId}
    {qty cust : Int} {r : PriceResult} {code : Str}
    (hr : get_best_price e pid qty cust = .ok r)
    (hn : normalize_product_code pid = .ok code) :
    ∃ b, b ∈ applicableRules e code qty cust ∧ r = mkResult b ∧
      ∀ p ∈ applicableRules e code qty cust, lexLe b p := by
  obtain ⟨b, l1, l2, happ, hres, h1, h2⟩ := resolve_ok_structure hr hn
  refine ⟨b, ?_, hres, ?_⟩
  · rw [happ]
    exact List.mem_append.2 (Or.inr (List.mem_cons_self _ _))
  · intro p hp
    rw [happ] at hp
    rcases List.mem_append.1 hp with hp1 | hp2
    · exact lexLt_le (h1 p hp1)
    · rcases List.mem_cons.1 hp2 with rfl | hp3
      · exact lexLe_refl p
      · exact h2 p hp3

/-! ### Claim theorems -/

/-- Claim C4: for every quantity ≤ 0 and arbitrary product id (including
ones that would fail normalization) and customer, resolution fails with
the invalid-quantity error, whose message states the quantity must be
greater than zero; the quantity check precedes normalization, and for
positive quantities this failure kind never occurs. -/
theorem resolve_invalid_quantity (e : PricingEngine) (pid : ProductId)
    (qty cust : Int) (h : qty ≤ 0) :
    get_best_price e pid qty cust = .error .invalidQuantity ∧
    PricingError.invalidQuantity.message =
      "Quantity must be greater than zero.".data ∧
    ∀ q2 : Int, 0 < q2 →
      get_best_price e pid q2 cust ≠ .error .invalidQuantity :=
  ⟨get_best_price_nonpos h, rfl, fun _ hq2 => get_best_price_pos_quantity hq2⟩

/-- Witness for C4 at quantity 0 with a product id that would fail
normalization. -/
theorem resolve_invalid_quantity_witness :
    get_best_price sampleEngine (.str "???".data) 0 9 =
      .error .invalidQuantity ∧
    PricingError.invalidQuantity.message =
      "Quantity must be greater than zero.".data ∧
    ∀ q2 : Int, 0 < q2 →
      get_best_price sampleEngine (.str "???".data) q2 9 ≠
        .error .invalidQuantity :=
  resolve_invalid_quantity sampleEngine (.str "???".data) 0 9 (by decide)

/-- Claim C5: with positive quantity and successful normalization,
resolution fails with the no-price-found error exactly when no rule
satisfies the product-code match, the minimum-quantity condition and the
scope condition together; the message carries the normalized code and
the requested quantity. -/
theorem resolve_no_price_found (e : PricingEngine) (pid : ProductId)
    (qty cust : Int) (code : Str) (hq : 0 < qty)
    (hn : normalize_product_code pid = .ok code) :
    (get_best_price e pid qty cust = .error (.noPriceFound code qty) ↔
      ¬ ∃ p ∈ e.prices, p.product_id = code ∧ p.min_qty ≤ qty ∧
        Applicable cust (e.customer_tiers cust) (e.customer_groups cust) p) ∧
    (PricingError.noPriceFound code qty).message =
      "No price found for ".data ++ code ++ " with quantity ".data ++
        intRepr qty ++ ".".data := by
  refine ⟨?_, rfl⟩
  rw [get_best_price_noPriceFound_iff hq hn, List.eq_nil_iff_forall_not_mem]
  constructor
  · rintro hall ⟨p, hp, h1, h2, h3⟩
    exact hall p ((mem_applicableRules_iff e code qty cust p).2 ⟨hp, h1, h2, h3⟩)
  · intro hne p hmem
    obtain ⟨hp, h1, h2, h3⟩ := (mem_applicableRules_iff e code qty cust p).1 hmem
    exact hne ⟨p, hp, h1, h2, h3⟩

/-- Witness for C5: the sample rule set has no P005 rules. -/
theorem resolve_no_price_found_witness :
    (get_best_price sampleEngine (.int 5) 2 6 =
        .error (.noPriceFound "P005".data 2) ↔
      ¬ ∃ p ∈ sampleEngine.prices, p.product_id = "P005".data ∧
        p.min_qty ≤ 2 ∧
        Applicable 6 (sampleEngine.customer_tiers 6)
          (sampleEngine.customer_groups 6) p) ∧
    (PricingError.noPriceFound "P005".data 2).message =
      "No price found for ".data ++ "P005".data ++ " with quantity ".data ++
        intRepr 2 ++ ".".data :=
  resolve_no_price_found sampleEngine (.int 5) 2 6 "P005".data
    (by decide) (by decide)

/-- Claim C7: a string whose case-insensitive form starts with P is
normalized to its uppercased form, otherwise unchanged: no re-padding of
the numeric suffix happens, so p1 becomes P1, not P001. -/
theorem normalize_p_string_uppercase (s : Str)
    (h : startsWithP (upper s) = true) :
    normalize_product_code (.str s) = .ok (upper s) ∧
    normalize_product_code (.str "p1".data) = .ok "P1".data ∧
    "P1".data ≠ "P001".data := by
  refine ⟨?_, by decide, by decide⟩
  simp only [normalize_product_code]
  rw [if_pos h]

/-- Witness for C7 at the string p001. -/
theorem normalize_p_string_uppercase_witness :
    normalize_product_code (.str "p001".data) = .ok (upper "p001".data) ∧
    normalize_product_code (.str "p1".data) = .ok "P1".data ∧
    "P1".data ≠ "P001".data :=
  normalize_p_string_uppercase "p001".data (by decide)

/-- Claim C8: a string that neither starts with P nor p nor consists of
digits fails normalization with the invalid-product error carrying the
raw input, and resolution propagates this failure unchanged whenever the
quantity check passes. -/
theorem normalize_invalid_string (s : Str)
    (h1 : ¬ startsWithChar 'P' s) (h2 : ¬ startsWithChar 'p' s)
    (h3 : isDigitStr s = false) :
    normalize_product_code (.str s) = .error (.invalidProduct (.str s)) ∧
    (PricingError.invalidProduct (.str s)).message =
      "Invalid product_id: ".data ++ s ∧
    ∀ (e : PricingEngine) (qty cust : Int), 0 < qty →
      get_best_price e (.str s) qty cust =
        .error (.invalidProduct (.str s)) := by
  have hsw : startsWithP (upper s) = false := by
    by_contra hne
    rw [Bool.not_eq_false] at hne
    rcases startsWithP_upper hne with h | h
    · exact h1 h
    · exact h2 h
  have hnorm : normalize_product_code (.str s) =
      .error (.invalidProduct (.str s)) := by
    simp only [normalize_product_code]
    rw [if_neg (by simp [hsw]), if_neg (by simp [h3])]
  exact ⟨hnorm, rfl, fun e qty cust hq =>
    get_best_price_normalize_error hq hnorm⟩

/-- Witness for C8 at the string x9. -/
theorem normalize_invalid_string_witness :
    normalize_product_code (.str "x9".data) =
      .error (.invalidProduct (.str "x9".data)) ∧
    (PricingError.invalidProduct (.str "x9".data)).message =
      "Invalid product_id: ".data ++ "x9".data ∧
    ∀ (e : PricingEngine) (qty cust : Int), 0 < qty →
      get_best_price e (.str "x9".data) qty cust =
        .error (.invalidProduct (.str "x9".data)) :=
  normalize_invalid_string "x9".data
    (by rintro ⟨t, ht⟩ ; injection ht with hh _ ; exact absurd hh (by decide))
    (by rintro ⟨t, ht⟩ ; injection ht with hh _ ; exact absurd hh (by decide))
    (by decide)

/-- Claim C10: normalization never fails on integers; a negative integer
produces a non-canonical code such as P-05, so resolution with a
negative integer product id and positive quantity reaches the candidate
search and, against a rule set of canonical P-digit codes, fails with
the no-price-found error rather than the invalid-product one. -/
theorem normalize_negative_int (n : Int) (hneg : n < 0) :
    (∀ m : Int, ∃ code, normalize_product_code (.int m) = .ok code) ∧
    normalize_product_code (.int n) =
      .ok ('P' :: '-' :: padZeros 2 (natDigits n.natAbs)) ∧
    normalize_product_code (.int (-5)) = .ok "P-05".data ∧
    ∀ (e : PricingEngine) (qty cust : Int), 0 < qty →
      (∀ p ∈ e.prices, CanonicalCode p.product_id) →
      get_best_price e (.int n) qty cust =
        .error (.noPriceFound
          ('P' :: '-' :: padZeros 2 (natDigits n.natAbs)) qty) := by
  have hnorm : normalize_product_code (.int n) =
      .ok ('P' :: '-' :: padZeros 2 (natDigits n.natAbs)) := by
    rw [normalize_int, formatInt3_neg hneg]
  refine ⟨fun m => ⟨'P' :: formatInt3 m, rfl⟩, hnorm, by decide, ?_⟩
  intro e qty cust hq hcanon
  apply (get_best_price_noPriceFound_iff hq hnorm).2
  apply applicableRules_nil_of_code_ne
  intro p hp heq
  obtain ⟨d, ds, hpc, hd⟩ := hcanon p hp
  rw [hpc] at heq
  injection heq with _ heq2
  injection heq2 with hd2 _
  rw [hd2] at hd
  exact absurd hd (by decide)

/-- Witness for C10 at the integer -5. -/
theorem normalize_negative_int_witness :
    (∀ m : Int, ∃ code, normalize_product_code (.int m) = .ok code) ∧
    normalize_product_code (.int (-5)) =
      .ok ('P' :: '-' :: padZeros 2 (natDigits (Int.natAbs (-5)))) ∧
    normalize_product_code (.int (-5)) = .ok "P-05".data ∧
    ∀ (e : PricingEngine) (qty cust : Int), 0 < qty →
      (∀ p ∈ e.prices, CanonicalCode p.product_id) →
      get_best_price e (.int (-5)) qty cust =
        .error (.noPriceFound
          ('P' :: '-' :: padZeros 2 (natDigits (Int.natAbs (-5)))) qty) :=
  normalize_negative_int (-5) (by decide)

/-- Claim C6: normalizing a nonnegative integer yields P followed by its
digits zero-padded on the left to length at least 3 with no upper
truncation (1 gives P001, 1000 gives P1000), and normalizing a digit
string gives the same result as normalizing its integer value. -/
theorem normalize_int_padding (n : Nat) (s : Str) (hs : isDigitStr s = true) :
    normalize_product_code (.int (n : Int)) =
      .ok ('P' :: padZeros 3 (natDigits n)) ∧
    (∃ k, padZeros 3 (natDigits n) = List.replicate k '0' ++ natDigits n ∧
      (padZeros 3 (natDigits n)).length = max 3 (natDigits n).length) ∧
    normalize_product_code (.int 1) = .ok "P001".data ∧
    normalize_product_code (.int 1000) = .ok "P1000".data ∧
    normalize_product_code (.str s) =
      normalize_product_code (.int (parseNat s)) := by
  refine ⟨?_, padZeros_structure 3 (natDigits n), by decide, by decide, ?_⟩
  · rw [normalize_int, formatInt3_natCast]
  · have hsw := startsWithP_upper_of_digits hs
    simp only [normalize_product_code]
    rw [if_neg (by simp [hsw]), if_pos hs, formatInt3_natCast]

/-- Witness for C6 at the integer 7 and the digit string 007. -/
theorem normalize_int_padding_witness :
    normalize_product_code (.int (7 : Nat)) =
      .ok ('P' :: padZeros 3 (natDigits 7)) ∧
    (∃ k, padZeros 3 (natDigits 7) = List.replicate k '0' ++ natDigits 7 ∧
      (padZeros 3 (natDigits 7)).length = max 3 (natDigits 7).length) ∧
    normalize_product_code (.int 1) = .ok "P001".data ∧
    normalize_product_code (.int 1000) = .ok "P1000".data ∧
    normalize_product_code (.str "007".data) =
      normalize_product_code (.int (parseNat "007".data)) :=
  normalize_int_padding 7 "007".data (by decide)

/-- Claim C1: a successful resolution returns a candidate rule whose
pair (source priority, price) is lexicographically minimal over the
candidate set, so whenever any CUSTOMER-scoped rule is applicable
(in particular when both a CUSTOMER and a NORMAL rule are), the winner
is a CUSTOMER rule and the result is tagged CUSTOMER, regardless of the
prices involved: source precedence strictly dominates price. -/
theorem resolve_source_precedence (e : PricingEngine) (pid : ProductId)
    (qty cust : Int) (r : PriceResult) (code : Str)
    (hr : get_best_price e pid qty cust = .ok r)
    (hn : normalize_product_code pid = .ok code) :
    ∃ b ∈ applicableRules e code qty cust,
      r = mkResult b ∧
      (∀ p ∈ applicableRules e code qty cust, lexLe b p) ∧
      ((∃ c ∈ applicableRules e code qty cust,
          c.source = PriceType.CUSTOMER) →
        b.source = PriceType.CUSTOMER ∧
          r.price_type = "CUSTOMER".data) := by
  obtain ⟨b, hbmem, hres, hmin⟩ := resolve_ok_min hr hn
  refine ⟨b, hbmem, hres, hmin, ?_⟩
  rintro ⟨c, hc, hcsrc⟩
  have hbc : b.source = PriceType.CUSTOMER := by
    rcases hmin c hc with hlt | ⟨heq, _⟩
    · exfalso
      have hone : PRIORITY c.source = 1 := by rw [hcsrc] ; rfl
      rw [hone] at hlt
      have := one_le_PRIORITY b.source
      omega
    · exact PRIORITY_eq_one (by rw [heq, hcsrc] ; rfl)
  refine ⟨hbc, ?_⟩
  rw [hres]
  unfold mkResult
  rw [hbc]
  rfl

/-- Witness for C1: with both a CUSTOMER rule at price 5 and a NORMAL
rule at price 10 applicable for P002, the CUSTOMER rule wins. -/
theorem resolve_source_precedence_witness :
    ∃ b ∈ applicableRules sampleEngine "P002".data 1 6,
      (⟨"P002".data, 5, "CUSTOMER".data⟩ : PriceResult) = mkResult b ∧
      (∀ p ∈ applicableRules sampleEngine "P002".data 1 6, lexLe b p) ∧
      ((∃ c ∈ applicableRules sampleEngine "P002".data 1 6,
          c.source = PriceType.CUSTOMER) →
        b.source = PriceType.CUSTOMER ∧
          (⟨"P002".data, 5, "CUSTOMER".data⟩ : PriceResult).price_type =
            "CUSTOMER".data) :=
  resolve_source_precedence sampleEngine (.int 2) 1 6
    ⟨"P002".data, 5, "CUSTOMER".data⟩ "P002".data (by decide) (by decide)

/-- Claim C2: among applicable rules sharing the winning rule's source,
none has a strictly lower price than the returned one. -/
theorem resolve_price_tiebreak_within_source (e : PricingEngine)
    (pid : ProductId) (qty cust : Int) (r : PriceResult) (code : Str)
    (hr : get_best_price e pid qty cust = .ok r)
    (hn : normalize_product_code pid = .ok code) :
    ∃ b ∈ applicableRules e code qty cust,
      r = mkResult b ∧
      ∀ p ∈ applicableRules e code qty cust,
        p.source = b.source → b.price ≤ p.price := by
  obtain ⟨b, hbmem, hres, hmin⟩ := resolve_ok_min hr hn
  refine ⟨b, hbmem, hres, ?_⟩
  intro p hp hsrc
  rcases hmin p hp with hlt | ⟨_, hle⟩
  · rw [hsrc] at hlt
    exact absurd hlt (lt_irrefl _)
  · exact hle

/-- Witness for C2 at the TIER price 95 for P001. -/
theorem resolve_price_tiebreak_within_source_witness :
    ∃ b ∈ applicableRules sampleEngine "P001".data 4 2,
      (⟨"P001".data, 95, "TIER".data⟩ : PriceResult) = mkResult b ∧
      ∀ p ∈ applicableRules sampleEngine "P001".data 4 2,
        p.source = b.source → b.price ≤ p.price :=
  resolve_price_tiebreak_within_source sampleEngine (.int 1) 4 2
    ⟨"P001".data, 95, "TIER".data⟩ "P001".data (by decide) (by decide)

/-- Claim C9: the winner of a successful resolution is the earliest
candidate attaining the minimal (source priority, price) pair: the
candidate list splits around the returned rule with every earlier
candidate strictly larger and every later one at least as large, so the
result is determined by the inputs and the construction-time rule
order. -/
theorem resolve_earliest_minimal_rule (e : PricingEngine) (pid : ProductId)
    (qty cust : Int) (r : PriceResult) (code : Str)
    (hr : get_best_price e pid qty cust = .ok r)
    (hn : normalize_product_code pid = .ok code) :
    ∃ b l1 l2, applicableRules e code qty cust = l1 ++ b :: l2 ∧
      r = mkResult b ∧ (∀ p ∈ l1, lexLt b p) ∧ (∀ p ∈ l2, lexLe b p) :=
  resolve_ok_structure hr hn

/-- Witness for C9 at the GROUP price 50 for P003. -/
theorem resolve_earliest_minimal_rule_witness :
    ∃ b l1 l2, applicableRules sampleEngine "P003".data 2 6 =
        l1 ++ b :: l2 ∧
      (⟨"P003".data, 50, "GROUP".data⟩ : PriceResult) = mkResult b ∧
      (∀ p ∈ l1, lexLt b p) ∧ (∀ p ∈ l2, lexLe b p) :=
  resolve_earliest_minimal_rule sampleEngine (.int 3) 2 6
    ⟨"P003".data, 50, "GROUP".data⟩ "P003".data (by decide) (by decide)

/-- Claim C3: a rule is a candidate exactly when its product code equals
the normalized query code, the quantity meets its minimum, and it is
applicable to the customer; consequently a candidate CUSTOMER rule has
an integer key equal to the customer id, a candidate TIER or GROUP rule
has a string key equal to the customer's tier or group, and a customer
absent from the tier mapping matches no TIER rule. -/
theorem candidate_set_characterization (e : PricingEngine) (code : Str)
    (qty cust : Int) (p : PriceEntry) :
    (p ∈ applicableRules e code qty cust ↔
      p ∈ e.prices ∧ p.product_id = code ∧ p.min_qty ≤ qty ∧
        Applicable cust (e.customer_tiers cust) (e.customer_groups cust) p) ∧
    (p ∈ applicableRules e code qty cust → p.source = PriceType.CUSTOMER →
      ∃ i, p.key = Key.intKey i ∧ i = cust) ∧
    (p ∈ applicableRules e code qty cust → p.source = PriceType.TIER →
      ∃ s, p.key = Key.strKey s ∧ e.customer_tiers cust = some s) ∧
    (p ∈ applicableRules e code qty cust → p.source = PriceType.GROUP →
      ∃ s, p.key = Key.strKey s ∧ e.customer_groups cust = some s) ∧
    (e.customer_tiers cust = Option.none →
      p ∈ applicableRules e code qty cust → p.source ≠ PriceType.TIER) := by
  refine ⟨mem_applicableRules_iff e code qty cust p, ?_, ?_, ?_, ?_⟩
  · intro hm hs
    exact Applicable_customer
      ((mem_applicableRules_iff e code qty cust p).1 hm).2.2.2 hs
  · intro hm hs
    exact Applicable_tier
      ((mem_applicableRules_iff e code qty cust p).1 hm).2.2.2 hs
  · intro hm hs
    exact Applicable_group
      ((mem_applicableRules_iff e code qty cust p).1 hm).2.2.2 hs
  · intro hnone hm hs
    obtain ⟨s, _, hts⟩ := Applicable_tier
      ((mem_applicableRules_iff e code qty cust p).1 hm).2.2.2 hs
    rw [hnone] at hts
    exact Option.noConfusion hts

/-- Witness for C3 at the sample CUSTOMER rule for P002. -/
theorem candidate_set_characterization_witness :
    ((⟨"P002".data, 1, 5, PriceType.CUSTOMER, Key.intKey 6⟩ : PriceEntry) ∈
        applicableRules sampleEngine "P002".data 1 6 ↔
      (⟨"P002".data, 1, 5, PriceType.CUSTOMER, Key.intKey 6⟩ : PriceEntry) ∈
          sampleEngine.prices ∧
        (⟨"P002".data, 1, 5, PriceType.CUSTOMER, Key.intKey 6⟩ :
          PriceEntry).product_id = "P002".data ∧
        (⟨"P002".data, 1, 5, PriceType.CUSTOMER, Key.intKey 6⟩ :
          PriceEntry).min_qty ≤ 1 ∧
        Applicable 6 (sampleEngine.customer_tiers 6)
          (sampleEngine.customer_groups 6)
          ⟨"P002".data, 1, 5, PriceType.CUSTOMER, Key.intKey 6⟩) ∧
    ((⟨"P002".data, 1, 5, PriceType.CUSTOMER, Key.intKey 6⟩ : PriceEntry) ∈
        applicableRules sampleEngine "P002".data 1 6 →
      (⟨"P002".data, 1, 5, PriceType.CUSTOMER, Key.intKey 6⟩ :
          PriceEntry).source = PriceType.CUSTOMER →
      ∃ i, (⟨"P002".data, 1, 5, PriceType.CUSTOMER, Key.intKey 6⟩ :
          PriceEntry).key = Key.intKey i ∧ i = 6) ∧
    ((⟨"P002".data, 1, 5, PriceType.CUSTOMER, Key.intKey 6⟩ : PriceEntry) ∈
        applicableRules sampleEngine "P002".data 1 6 →
      (⟨"P002".data, 1, 5, PriceType.CUSTOMER, Key.intKey 6⟩ :
          PriceEntry).source = PriceType.TIER →
      ∃ s, (⟨"P002".data, 1, 5, PriceType.CUSTOMER, Key.intKey 6⟩ :
          PriceEntry).key = Key.strKey s ∧
        sampleEngine.customer_tiers 6 = some s) ∧
    ((⟨"P002".data, 1, 5, PriceType.CUSTOMER, Key.intKey 6⟩ : PriceEntry) ∈
        applicableRules sampleEngine "P002".data 1 6 →
      (⟨"P002".data, 1, 5, PriceType.CUSTOMER, Key.intKey 6⟩ :
          PriceEntry).source = PriceType.GROUP →
      ∃ s, (⟨"P002".data, 1, 5, PriceType.CUSTOMER, Key.intKey 6⟩ :
          PriceEntry).key = Key.strKey s ∧
        sampleEngine.customer_groups 6 = some s) ∧
    (sampleEngine.customer_tiers 6 = Option.none →
      (⟨"P002".data, 1, 5, PriceType.CUSTOMER, Key.intKey 6⟩ : PriceEntry) ∈
        applicableRules sampleEngine "P002".data 1 6 →
      (⟨"P002".data, 1, 5, PriceType.CUSTOMER, Key.intKey 6⟩ :
          PriceEntry).source ≠ PriceType.TIER) :=
  candidate_set_characterization sampleEngine "P002".data 1 6
    ⟨"P002".data, 1, 5, PriceType.CUSTOMER, Key.intKey 6⟩
